import Mathlib

/-!
Verification development for the `hydro_journal` repository: a static,
client-only journaling PWA that commits JSON entries and images to a
GitHub repository through the Git Data API.

JavaScript strings are modelled as `List Char` (UTF-16 code units of the
source strings; all strings involved are ASCII).  JSON serialisation
(`JSON.stringify`) is modelled structurally by the inductive `FileContent`:
distinct document shapes are distinct constructors, mirroring the fact
that the code always serialises a whole document value.  Network calls
performed by `github-api.js` are modelled as an emitted request trace
together with an oracle (`Net`) supplying each response or failure.
-/

namespace HydroJournal

/-- Structural helper for `natDigits`: the first argument is fuel
bounding the recursion depth (any fuel `≥ n` gives the digits of `n`). -/
def natDigitsAux : Nat → Nat → List Char
  | 0, n => [Char.ofNat (48 + n % 10)]
  | fuel + 1, n =>
    if n < 10 then [Char.ofNat (48 + n)]
    else natDigitsAux fuel (n / 10) ++ [Char.ofNat (48 + n % 10)]

/-- Decimal digit characters of a natural number, most significant first.
Models the JavaScript `String(n)` conversion used on sequence numbers. -/
def natDigits (n : Nat) : List Char := natDigitsAux n n

/-- Numeric value of a digit string, as computed by JavaScript
`parseInt(s)` on a string of decimal digits. -/
def digitsVal (ds : List Char) : Nat :=
  ds.foldl (fun a c => 10 * a + (c.toNat - 48)) 0

/-- `s.padStart(2, '0')` from `submit.js`: pad a string on the left with
the character `'0'` to length at least 2. -/
def padStart2 (s : List Char) : List Char :=
  if s.length ≥ 2 then s else List.replicate (2 - s.length) '0' ++ s

/-- `String(i + 1).padStart(3, '0')` used for image sequence numbers. -/
def padStart3 (s : List Char) : List Char :=
  if s.length ≥ 3 then s else List.replicate (3 - s.length) '0' ++ s

/-- `auth.js`: the three localStorage slots.  `none` models a key that
was never set (`localStorage.getItem` returns `null`). -/
structure AuthStore where
  token : Option (List Char)
  owner : Option (List Char)
  repo : Option (List Char)

/-- `Auth.getToken`: `localStorage.getItem(STORAGE_KEY) || ''`.
JavaScript `||` yields the right operand when the left is `null` or the
empty string; in both cases the result is `''`. -/
def Auth.getToken (st : AuthStore) : List Char :=
  match st.token with
  | none => []
  | some s => s

/-- `Auth.getOwner`: `localStorage.getItem(OWNER_KEY) || ''`. -/
def Auth.getOwner (st : AuthStore) : List Char :=
  match st.owner with
  | none => []
  | some s => s

/-- `Auth.getRepo`: `localStorage.getItem(REPO_KEY) || 'hydro_journal'`.
Both a missing key (`null`) and a stored empty string are falsy, so both
fall through to the default. -/
def Auth.getRepo (st : AuthStore) : List Char :=
  match st.repo with
  | none => "hydro_journal".data
  | some s => if s.isEmpty then "hydro_journal".data else s

/-- `Auth.isConfigured`: `!!(this.getToken() && this.getOwner())`.
A JavaScript string is truthy exactly when it is non-empty. -/
def Auth.isConfigured (st : AuthStore) : Bool :=
  !(Auth.getToken st).isEmpty && !(Auth.getOwner st).isEmpty

/-- `submit.js` line 6: `MAX_IMAGE_DIMENSION = 1200`. -/
def MAX_IMAGE_DIMENSION : Nat := 1200

/-- JavaScript `Math.round(num / den)` on non-negative operands:
round-half-up of the exact rational `num / den`, i.e.
`⌊num/den + 1/2⌋ = ⌊(2*num + den) / (2*den)⌋`. -/
def jsRound (num den : Nat) : Nat :=
  (2 * num + den) / (2 * den)

/-- The dimension computation of `compressImage` (`submit.js` 127-136):
if either dimension exceeds `MAX_IMAGE_DIMENSION`, the larger one is set
to the maximum and the other is scaled proportionally with `Math.round`. -/
def compressDims (width height : Nat) : Nat × Nat :=
  if width > MAX_IMAGE_DIMENSION ∨ height > MAX_IMAGE_DIMENSION then
    if width > height then
      (MAX_IMAGE_DIMENSION, jsRound (height * MAX_IMAGE_DIMENSION) width)
    else
      (jsRound (width * MAX_IMAGE_DIMENSION) height, MAX_IMAGE_DIMENSION)
  else (width, height)

/-- The JavaScript regex match `f.match(/_(\d+)\.json$/)` from
`submit.js`: succeeds exactly when `f` ends in `".json"` immediately
preceded by a non-empty run of decimal digits that is itself immediately
preceded by `'_'`; the captured value is `parseInt` of that digit run. -/
def matchSeq (f : List Char) : Option Nat :=
  if (".json".data).isSuffixOf f then
    let body := f.take (f.length - 5)
    let digsRev := body.reverse.takeWhile Char.isDigit
    let rest := body.reverse.dropWhile Char.isDigit
    if rest.head? = some '_' ∧ ¬digsRev.isEmpty then
      some (digitsVal digsRev.reverse)
    else none
  else none

/-- One step of the `maxSeq` loop in `submit.js` 236-244: a filename
matching `_(\d+)\.json$` contributes its parsed sequence number, any
other same-date filename contributes `1`. -/
def seqOf (f : List Char) : Nat :=
  match matchSeq f with
  | some n => n
  | none => 1

/-- `submit.js` 231-248: choose the entry document filename from the
entry date and the list of filenames in the fetched index. -/
def chooseEntryFilename (date : List Char) (index : List (List Char)) :
    List Char :=
  let existing := index.filter (fun f => date.isPrefixOf f)
  if existing.isEmpty then date ++ ".json".data
  else
    let maxSeq := existing.foldl (fun m f => max m (seqOf f)) 0
    date ++ '_' :: padStart2 (natDigits (maxSeq + 1)) ++ ".json".data

/-- JavaScript default string comparison used by `Array.prototype.sort`:
lexicographic on UTF-16 code units, a proper prefix sorting first. -/
def jsStrLe : List Char → List Char → Bool
  | [], _ => true
  | _ :: _, [] => false
  | x :: xs, y :: ys =>
    if x.toNat < y.toNat then true
    else if y.toNat < x.toNat then false
    else jsStrLe xs ys

/-- `submit.js` 265-267: the entry list written back to `index.json` is
the fetched list with the new filename pushed, then sorted in place. -/
def writtenIndexEntries (fetched : List (List Char)) (fname : List Char) :
    List (List Char) :=
  (fetched ++ [fname]).mergeSort jsStrLe

/-- An entry document as built in `submit.js` step 3 (`entry = {date,
time, notes, images, measurements}`).  Measurements are an optional
triple of decimal readings; their numeric values are opaque here. -/
structure EntryDoc where
  date : List Char
  time : List Char
  notes : List Char
  images : List (List Char)
  ph : Option (List Char)
  ec : Option (List Char)
  waterTemp : Option (List Char)
deriving DecidableEq, Repr

/-- An experiment object as built in `site.js` `createNewExperiment`
(`{id, name, description, startDate, status}`). -/
structure Experiment where
  id : List Char
  name : List Char
  description : List Char
  startDate : List Char
  status : List Char
deriving DecidableEq, Repr

/-- Experiment metadata document (`meta.json` in `createNewExperiment`). -/
structure MetaDoc where
  id : List Char
  name : List Char
  description : List Char
  startDate : List Char
  status : List Char
  system : List Char
  plants : List (List Char)
  nutrients : List Char
deriving DecidableEq, Repr

/-- Structural model of the string contents handed to `commitFiles`:
each constructor stands for `JSON.stringify` of the corresponding
document shape, or for a base64 image payload. -/
inductive FileContent where
  | entryDoc (e : EntryDoc)
  | indexDoc (entries : List (List Char))
  | experimentsDoc (experiments : List Experiment)
  | metaDoc (m : MetaDoc)
  | imageB64 (data : List Char)
deriving DecidableEq, Repr

/-- One element of the `files` array passed to `commitFiles`:
`{path, content, encoding}` with `encoding` omitted for text files. -/
structure JFile where
  path : List Char
  content : FileContent
  encoding : Option (List Char)
deriving DecidableEq, Repr

/-- `submit.js` step 1: the image files pushed for the selected photos,
at paths `images/<experimentId>/<date>_<seq>.jpg` with `seq` the 1-based
position padded to three digits, content the compressed base64 payload,
encoding `'base64'`. -/
def imageFiles (experimentId date : List Char) (photos : List (List Char)) :
    List JFile :=
  (List.range photos.length).zip photos |>.map fun p =>
    { path := "images/".data ++ experimentId ++ '/' :: date ++
        '_' :: padStart3 (natDigits (p.1 + 1)) ++ ".jpg".data
      content := .imageB64 p.2
      encoding := some "base64".data }

/-- The per-experiment index path used in `submit.js` step 2. -/
def indexPath (experimentId : List Char) : List Char :=
  "data/experiments/".data ++ experimentId ++ "/entries/index.json".data

/-- The entry document path used in `submit.js` step 3. -/
def entryPath (experimentId fname : List Char) : List Char :=
  "data/experiments/".data ++ experimentId ++ "/entries/".data ++ fname

/-- `submit.js` steps 1-4: the complete batch of files handed to
`commitFiles` for one submission.  `fetchedIndex` is the entry list of
the index fetched at the start (`[]` when `getFileContent` found no
index), `photos` the compressed photo payloads. -/
def submissionFiles (experimentId date : List Char)
    (fetchedIndex : List (List Char)) (photos : List (List Char))
    (entry : EntryDoc) : List JFile :=
  let fname := chooseEntryFilename date fetchedIndex
  imageFiles experimentId date photos ++
    [{ path := entryPath experimentId fname
       content := .entryDoc entry
       encoding := none },
     { path := indexPath experimentId
       content := .indexDoc (writtenIndexEntries fetchedIndex fname)
       encoding := none }]

/-- `site.js` `createNewExperiment` 409-441: from the fetched
`experiments.json` content (`none` when the file does not exist) and the
trimmed form fields, either the batch of files to commit or `none` when
no commit is performed (empty required field or duplicate id). -/
def createNewExperimentFiles (fetched : Option (List Experiment))
    (id name description startDate : List Char) : Option (List JFile) :=
  if id.isEmpty ∨ name.isEmpty ∨ startDate.isEmpty then none
  else
    let experiments := match fetched with
      | none => []
      | some es => es
    if experiments.any (fun e => e.id = id) then none
    else
      let newExp : Experiment :=
        { id := id, name := name, description := description,
          startDate := startDate, status := "active".data }
      let meta : MetaDoc :=
        { id := id, name := name, description := description,
          startDate := startDate, status := "active".data,
          system := [], plants := [], nutrients := [] }
      some
        [{ path := "docs/data/experiments.json".data
           content := .experimentsDoc (experiments ++ [newExp])
           encoding := none },
         { path := "docs/data/experiments/".data ++ id ++ "/meta.json".data
           content := .metaDoc meta
           encoding := none },
         { path := "docs/data/experiments/".data ++ id ++
             "/entries/index.json".data
           content := .indexDoc []
           encoding := none }]

/-- A request as seen by the service worker fetch listener (`sw.js`):
method plus the parsed URL's hostname and pathname. -/
structure SWRequest where
  method : List Char
  hostname : List Char
  pathname : List Char
deriving DecidableEq, Repr

/-- What the fetch listener does with a request: nothing
(no `respondWith`, the browser handles it), cache-first, or
network-first. -/
inductive Strategy where
  | passThrough
  | cacheFirst
  | networkFirst
deriving DecidableEq, Repr

/-- Substring test, modelling the truthiness of
`url.pathname.match(/\/icons\//)`: does `needle` occur as a contiguous
substring of the second argument? -/
def hasSubstr (needle : List Char) : List Char → Bool
  | [] => needle.isEmpty
  | c :: rest => needle.isPrefixOf (c :: rest) || hasSubstr needle rest

/-- The dispatch of the `fetch` listener in `sw.js` 43-58:
non-GET and `api.github.com` requests are skipped; cross-origin
requests and paths containing `/icons/` go cache-first; everything else
(app shell, data, images) goes network-first. -/
def swHandle (selfHostname : List Char) (r : SWRequest) : Strategy :=
  if r.method ≠ "GET".data then .passThrough
  else if r.hostname = "api.github.com".data then .passThrough
  else if r.hostname ≠ selfHostname ∨ hasSubstr "/icons/".data r.pathname
    then .cacheFirst
  else .networkFirst

/-- A service-worker level response: HTTP status and body. -/
structure SWResponse where
  status : Nat
  body : List Char
deriving DecidableEq, Repr

/-- The synthetic response built by both strategies when nothing else is
available: `new Response('Offline', { status: 503 })`. -/
def offlineResponse : SWResponse :=
  { status := 503, body := "Offline".data }

/-- `networkFirst` in `sw.js` 76-88.  `netResult` is `some resp` when
`fetch` resolved (with any status) and `none` when it threw; `cached` is
the result of `caches.match`. -/
def networkFirstResponse (netResult cached : Option SWResponse) :
    SWResponse :=
  match netResult with
  | some resp => resp
  | none =>
    match cached with
    | some c => c
    | none => offlineResponse

/-- `cacheFirst` in `sw.js` 60-74. -/
def cacheFirstResponse (cached netResult : Option SWResponse) :
    SWResponse :=
  match cached with
  | some c => c
  | none =>
    match netResult with
    | some resp => resp
    | none => offlineResponse

/-- A tree entry as pushed by `commitFiles` (`github-api.js` 118-123). -/
structure TreeEntry where
  path : List Char
  mode : List Char
  type : List Char
  sha : List Char
deriving DecidableEq, Repr

/-- The API requests issued by `github-api.js`, identified by endpoint
and the payload fields the claims are about. -/
inductive Request where
  | getRef (branch : List Char)
  | getCommit (sha : List Char)
  | createBlob (content : FileContent) (encoding : List Char)
  | createTree (baseTree : List Char) (entries : List TreeEntry)
  | createCommit (message : List Char) (tree : List Char)
      (parents : List (List Char))
  | updateRef (branch : List Char) (sha : List Char)
deriving DecidableEq, Repr

/-- Whether a request is a ref update (`PATCH /git/refs/heads/...`). -/
def Request.isUpdateRef : Request → Bool
  | .updateRef _ _ => true
  | _ => false

/-- Outcome of one API call: the SHA the caller extracts from the JSON
response, or the message of the error thrown by `apiRequest` on a
non-ok status (or by `fetch` itself). -/
inductive ApiOutcome where
  | ok (sha : List Char)
  | fail (msg : List Char)
deriving DecidableEq, Repr

/-- The error message thrown by `apiRequest` (`github-api.js` 22-25):
`GitHub API ${res.status}: ${body}`. -/
def apiErrorMessage (status : Nat) (body : List Char) : List Char :=
  "GitHub API ".data ++ natDigits status ++ ':' :: ' ' :: body

/-- Oracle for one run of `commitFiles`: the response (or failure) the
server gives to each call the orchestrator may make. -/
structure Net where
  refResp : ApiOutcome
  commitResp : ApiOutcome
  blobResp : Nat → ApiOutcome
  treeResp : ApiOutcome
  newCommitResp : ApiOutcome
  updateResp : ApiOutcome

/-- The blob-creation loop of `commitFiles` (`github-api.js` 115-124):
for each file a `createBlob` request with the file's content and
encoding (`file.encoding || 'utf-8'`); on success a tree entry with
`mode '100644'`, `type 'blob'` and the returned SHA is accumulated; the
first failure aborts the loop (the exception propagates). -/
def runBlobs (net : Net) :
    Nat → List JFile → List Request × Except (List Char) (List TreeEntry)
  | _, [] => ([], .ok [])
  | i, f :: fs =>
    let req := Request.createBlob f.content (f.encoding.getD "utf-8".data)
    match net.blobResp i with
    | .fail e => ([req], .error e)
    | .ok sha =>
      let rest := runBlobs net (i + 1) fs
      (req :: rest.1,
        match rest.2 with
        | .error e => .error e
        | .ok entries =>
          .ok ({ path := f.path, mode := "100644".data,
                 type := "blob".data, sha := sha } :: entries))

/-- `commitFiles` (`github-api.js` 104-140) as a trace semantics: the
list of API requests issued, in order, together with the result — the
new commit's SHA, or the message of the first exception (which
propagates immediately, so no request after the failing one is made). -/
def commitFilesRun (net : Net) (message : List Char) (files : List JFile) :
    List Request × Except (List Char) (List Char) :=
  let r0 := Request.getRef "main".data
  match net.refResp with
  | .fail e => ([r0], .error e)
  | .ok headSha =>
    let r1 := Request.getCommit headSha
    match net.commitResp with
    | .fail e => ([r0, r1], .error e)
    | .ok baseTreeSha =>
      let blobs := runBlobs net 0 files
      match blobs.2 with
      | .error e => ([r0, r1] ++ blobs.1, .error e)
      | .ok entries =>
        let r2 := Request.createTree baseTreeSha entries
        match net.treeResp with
        | .fail e => ([r0, r1] ++ blobs.1 ++ [r2], .error e)
        | .ok newTreeSha =>
          let r3 := Request.createCommit message newTreeSha [headSha]
          match net.newCommitResp with
          | .fail e => ([r0, r1] ++ blobs.1 ++ [r2, r3], .error e)
          | .ok newCommitSha =>
            let r4 := Request.updateRef "main".data newCommitSha
            match net.updateResp with
            | .fail e => ([r0, r1] ++ blobs.1 ++ [r2, r3, r4], .error e)
            | .ok _ => ([r0, r1] ++ blobs.1 ++ [r2, r3, r4], .ok newCommitSha)

/-- The progress line rendered by `onSubmit` (`submit.js` 283-288):
a caught error is shown as the flat string `Error: ${err.message}`. -/
def renderSubmitError (msg : List Char) : List Char :=
  "Error: ".data ++ msg

/-- What the submission UI displays for the final outcome of the commit:
the success line, or the flat error string. -/
def submitOutcomeDisplay : Except (List Char) (List Char) → List Char
  | .error e => renderSubmitError e
  | .ok _ => "Entry submitted successfully!".data

/-! ## Supporting lemmas -/

theorem digitsVal_cons (c : Char) (ds : List Char) (a : Nat) :
    (c :: ds).foldl (fun a c => 10 * a + (c.toNat - 48)) a =
      ds.foldl (fun a c => 10 * a + (c.toNat - 48)) (10 * a + (c.toNat - 48)) := by
  simp [List.foldl_cons]

theorem toNat_ofNat_digit (r : Nat) (hr : r < 10) :
    (Char.ofNat (48 + r)).toNat = 48 + r := by
  interval_cases r <;> decide

theorem digitsVal_natDigitsAux :
    ∀ (fuel n : Nat), n ≤ fuel → digitsVal (natDigitsAux fuel n) = n := by
  intro fuel
  induction fuel with
  | zero =>
    intro n hn
    interval_cases n
    decide
  | succ f ih =>
    intro n hn
    rw [natDigitsAux]
    split
    · next h =>
      simp only [digitsVal, List.foldl_cons, List.foldl_nil]
      rw [toNat_ofNat_digit n h]
      omega
    · next h =>
      have hle : n / 10 ≤ f := by omega
      simp only [digitsVal, List.foldl_append, List.foldl_cons, List.foldl_nil]
      have := ih (n / 10) hle
      simp only [digitsVal] at this
      rw [this, toNat_ofNat_digit (n % 10) (Nat.mod_lt _ (by omega))]
      omega

theorem digitsVal_natDigits (n : Nat) : digitsVal (natDigits n) = n :=
  digitsVal_natDigitsAux n n le_rfl

theorem natDigitsAux_ne_nil (fuel n : Nat) : natDigitsAux fuel n ≠ [] := by
  cases fuel with
  | zero => simp [natDigitsAux]
  | succ f =>
    rw [natDigitsAux]
    split <;> simp

theorem natDigits_ne_nil (n : Nat) : natDigits n ≠ [] :=
  natDigitsAux_ne_nil n n

theorem natDigitsAux_isDigit :
    ∀ (fuel n : Nat), n ≤ fuel → ∀ c ∈ natDigitsAux fuel n, c.isDigit = true := by
  intro fuel
  induction fuel with
  | zero =>
    intro n hn c hc
    interval_cases n
    simp only [natDigitsAux, List.mem_singleton] at hc
    subst hc
    decide
  | succ f ih =>
    intro n hn c hc
    rw [natDigitsAux] at hc
    split at hc
    · next h =>
      simp only [List.mem_singleton] at hc
      subst hc
      have hr : n < 10 := h
      interval_cases n <;> decide
    · next h =>
      simp only [List.mem_append, List.mem_singleton] at hc
      rcases hc with hc | hc
      · exact ih (n / 10) (by omega) c hc
      · subst hc
        have hr : n % 10 < 10 := Nat.mod_lt _ (by omega)
        generalize n % 10 = r at hr
        interval_cases r <;> decide

theorem natDigits_isDigit (n : Nat) : ∀ c ∈ natDigits n, c.isDigit = true :=
  natDigitsAux_isDigit n n le_rfl

theorem digitsVal_replicate_zero (k : Nat) (ds : List Char) :
    digitsVal (List.replicate k '0' ++ ds) = digitsVal ds := by
  induction k with
  | zero => simp
  | succ m ih =>
    simp only [List.replicate_succ, List.cons_append, digitsVal, digitsVal_cons] at *
    simpa using ih

theorem digitsVal_padStart2_natDigits (n : Nat) :
    digitsVal (padStart2 (natDigits n)) = n := by
  unfold padStart2
  split
  · exact digitsVal_natDigits n
  · rw [digitsVal_replicate_zero]
    exact digitsVal_natDigits n

theorem padStart2_natDigits_isDigit (n : Nat) :
    ∀ c ∈ padStart2 (natDigits n), c.isDigit = true := by
  unfold padStart2
  split
  · exact natDigits_isDigit n
  · intro c hc
    rcases List.mem_append.mp hc with hc | hc
    · rw [List.eq_of_mem_replicate hc]; decide
    · exact natDigits_isDigit n c hc

theorem padStart2_natDigits_ne_nil (n : Nat) : padStart2 (natDigits n) ≠ [] := by
  unfold padStart2
  split
  · exact natDigits_ne_nil n
  · intro h
    rcases List.append_eq_nil.mp h with ⟨-, h2⟩
    exact natDigits_ne_nil n h2

theorem isPrefixOf_append_self (xs ys : List Char) :
    xs.isPrefixOf (xs ++ ys) = true := by
  induction xs with
  | nil => simp [List.isPrefixOf]
  | cons c t ih => simp [List.isPrefixOf, ih]

theorem isSuffixOf_append_self (xs ys : List Char) :
    ys.isSuffixOf (xs ++ ys) = true := by
  simp only [List.isSuffixOf, List.reverse_append]
  exact isPrefixOf_append_self ys.reverse xs.reverse

theorem takeWhile_append_stop {p : Char → Bool} :
    ∀ (xs : List Char) (y : Char) (ys : List Char),
      (∀ x ∈ xs, p x = true) → p y = false →
      (xs ++ y :: ys).takeWhile p = xs := by
  intro xs y ys hall hy
  induction xs with
  | nil => simp [List.takeWhile, hy]
  | cons c t ih =>
    have hc : p c = true := hall c (by simp)
    simp only [List.cons_append, List.takeWhile_cons, hc, if_true]
    rw [ih (fun x hx => hall x (by simp [hx]))]

theorem dropWhile_append_stop {p : Char → Bool} :
    ∀ (xs : List Char) (y : Char) (ys : List Char),
      (∀ x ∈ xs, p x = true) → p y = false →
      (xs ++ y :: ys).dropWhile p = y :: ys := by
  intro xs y ys hall hy
  induction xs with
  | nil => simp [List.dropWhile, hy]
  | cons c t ih =>
    have hc : p c = true := hall c (by simp)
    simp only [List.cons_append, List.dropWhile_cons, hc, if_true]
    exact ih (fun x hx => hall x (by simp [hx]))

theorem mem_of_mem_dropWhile {p : Char → Bool} :
    ∀ (l : List Char) (x : Char), x ∈ l.dropWhile p → x ∈ l := by
  intro l x
  induction l with
  | nil => simp
  | cons c t ih =>
    simp only [List.dropWhile_cons]
    split
    · intro h; exact List.mem_cons_of_mem c (ih h)
    · exact id

theorem matchSeq_body (body : List Char) :
    matchSeq (body ++ ".json".data) =
      if (body.reverse.dropWhile Char.isDigit).head? = some '_' ∧
          ¬(body.reverse.takeWhile Char.isDigit).isEmpty then
        some (digitsVal (body.reverse.takeWhile Char.isDigit).reverse)
      else none := by
  unfold matchSeq
  rw [isSuffixOf_append_self]
  have hl : (body ++ ".json".data).length - 5 = body.length := by
    simp [List.length_append]
  rw [if_pos rfl, hl, List.take_left]

theorem matchSeq_underscore_digits (date pad : List Char) (hne : pad ≠ [])
    (hd : ∀ c ∈ pad, c.isDigit = true) :
    matchSeq ((date ++ '_' :: pad) ++ ".json".data) = some (digitsVal pad) := by
  rw [matchSeq_body]
  have hrev : (date ++ '_' :: pad).reverse = pad.reverse ++ '_' :: date.reverse := by
    simp
  rw [hrev,
    takeWhile_append_stop pad.reverse '_' date.reverse
      (fun x hx => hd x (List.mem_reverse.mp hx)) (by decide),
    dropWhile_append_stop pad.reverse '_' date.reverse
      (fun x hx => hd x (List.mem_reverse.mp hx)) (by decide)]
  have hne' : pad.reverse.isEmpty = false := by
    simp [List.isEmpty_iff, hne]
  simp [hne']

theorem matchSeq_date_json (date : List Char) (h : '_' ∉ date) :
    matchSeq (date ++ ".json".data) = none := by
  rw [matchSeq_body]
  rw [if_neg]
  rintro ⟨h1, -⟩
  rcases hcase : date.reverse.dropWhile Char.isDigit with _ | ⟨c, t⟩
  · rw [hcase] at h1
    simp at h1
  · rw [hcase] at h1
    simp only [List.head?_cons, Option.some_inj] at h1
    subst h1
    have : '_' ∈ date.reverse :=
      mem_of_mem_dropWhile date.reverse '_' (hcase ▸ List.mem_cons_self _ _)
    exact h (List.mem_reverse.mp this)

theorem seqOf_underscore_digits (date : List Char) (n : Nat) :
    seqOf ((date ++ '_' :: padStart2 (natDigits n)) ++ ".json".data) = n := by
  unfold seqOf
  rw [matchSeq_underscore_digits date _ (padStart2_natDigits_ne_nil n)
    (padStart2_natDigits_isDigit n)]
  exact digitsVal_padStart2_natDigits n

theorem seqOf_date_json (date : List Char) (h : '_' ∉ date) :
    seqOf (date ++ ".json".data) = 1 := by
  unfold seqOf
  rw [matchSeq_date_json date h]

theorem le_foldl_max_init (l : List (List Char)) (a : Nat) :
    a ≤ l.foldl (fun m g => max m (seqOf g)) a := by
  induction l generalizing a with
  | nil => simp
  | cons g t ih =>
    simp only [List.foldl_cons]
    exact le_trans (Nat.le_max_left a (seqOf g)) (ih (max a (seqOf g)))

theorem seq_le_foldl_max (l : List (List Char)) (a : Nat) (f : List Char)
    (h : f ∈ l) : seqOf f ≤ l.foldl (fun m g => max m (seqOf g)) a := by
  induction l generalizing a with
  | nil => cases h
  | cons g t ih =>
    simp only [List.foldl_cons]
    rcases List.mem_cons.mp h with rfl | hm
    · exact le_trans (Nat.le_max_right a (seqOf f)) (le_foldl_max_init t _)
    · exact ih _ hm

theorem chooseEntryFilename_eq (date : List Char) (index : List (List Char)) :
    chooseEntryFilename date index =
      if (index.filter fun f => date.isPrefixOf f).isEmpty then
        date ++ ".json".data
      else
        date ++ '_' :: padStart2 (natDigits
          ((index.filter fun f => date.isPrefixOf f).foldl
            (fun m f => max m (seqOf f)) 0 + 1)) ++ ".json".data := rfl

/-! ## Claim theorems -/

/-- C3: the entry document filename chosen by `onSubmit` is
`<date>.json` when no filename in the fetched index starts with the
entry's date, and otherwise `<date>_<NN>.json` with `NN` one greater
than the maximum numeric suffix among the date-matching filenames
(a filename without a numeric `_NN` suffix counting as `1`, so the
first collision yields `_02`), zero-padded to at least two digits; in
every case the chosen filename is not already present in the index. -/
theorem entry_filename_fresh (date : List Char) (index : List (List Char)) :
    chooseEntryFilename date index ∉ index ∧
    ((∀ f ∈ index, date.isPrefixOf f = false) →
      chooseEntryFilename date index = date ++ ".json".data) ∧
    ((∃ f ∈ index, date.isPrefixOf f = true) →
      chooseEntryFilename date index =
        date ++ '_' :: padStart2 (natDigits
          ((index.filter fun f => date.isPrefixOf f).foldl
            (fun m f => max m (seqOf f)) 0 + 1)) ++ ".json".data) ∧
    ('_' ∉ date →
      chooseEntryFilename date [date ++ ".json".data] =
        date ++ "_02.json".data) := by
  refine ⟨?_, ?_, ?_, ?_⟩
  · rw [chooseEntryFilename_eq]
    split
    · next hemp =>
      intro hmem
      have hpre : date.isPrefixOf (date ++ ".json".data) = true :=
        isPrefixOf_append_self date ".json".data
      have hmf : (date ++ ".json".data) ∈ index.filter fun f => date.isPrefixOf f :=
        List.mem_filter.mpr ⟨hmem, hpre⟩
      rw [List.isEmpty_iff.mp hemp] at hmf
      cases hmf
    · next hemp =>
      intro hmem
      set ms := (index.filter fun f => date.isPrefixOf f).foldl
        (fun m f => max m (seqOf f)) 0 with hms
      have hpre : date.isPrefixOf
          (date ++ '_' :: padStart2 (natDigits (ms + 1)) ++ ".json".data) = true := by
        rw [List.append_assoc]
        exact isPrefixOf_append_self date _
      have hmf : (date ++ '_' :: padStart2 (natDigits (ms + 1)) ++ ".json".data) ∈
          index.filter fun f => date.isPrefixOf f :=
        List.mem_filter.mpr ⟨hmem, hpre⟩
      have hle : seqOf (date ++ '_' :: padStart2 (natDigits (ms + 1)) ++ ".json".data) ≤ ms :=
        seq_le_foldl_max _ 0 _ hmf
      rw [seqOf_underscore_digits date (ms + 1)] at hle
      omega
  · intro hall
    rw [chooseEntryFilename_eq, if_pos]
    rw [List.isEmpty_iff, List.filter_eq_nil_iff]
    intro f hf
    simp [hall f hf]
  · rintro ⟨f, hf, hpre⟩
    rw [chooseEntryFilename_eq, if_neg]
    rw [List.isEmpty_iff, List.filter_eq_nil_iff]
    push_neg
    exact ⟨f, hf, by simp [hpre]⟩
  · intro hu
    rw [chooseEntryFilename_eq]
    have hpre : date.isPrefixOf (date ++ ".json".data) = true :=
      isPrefixOf_append_self date ".json".data
    have hfil : ([date ++ ".json".data].filter fun f => date.isPrefixOf f) =
        [date ++ ".json".data] := by
      simp [List.filter, hpre]
    rw [if_neg (by rw [hfil]; simp)]
    rw [hfil]
    simp only [List.foldl_cons, List.foldl_nil]
    rw [seqOf_date_json date hu]
    have h2 : natDigits 2 = ['2'] := by decide
    have hp : padStart2 ['2'] = ['0', '2'] := by decide
    rw [show max 0 1 + 1 = 2 from rfl, h2, hp]
    simp

theorem jsStrLe_trans :
    ∀ a b c : List Char, jsStrLe a b = true → jsStrLe b c = true →
      jsStrLe a c = true := by
  intro a
  induction a with
  | nil => intro b c _ _; rfl
  | cons x xs ih =>
    intro b c h1 h2
    cases b with
    | nil => simp [jsStrLe] at h1
    | cons y ys =>
      cases c with
      | nil => simp [jsStrLe] at h2
      | cons z zs =>
        simp only [jsStrLe] at h1 h2 ⊢
        split_ifs at h1 h2 ⊢ <;> first | rfl | omega | skip
        all_goals exact ih ys zs h1 h2

theorem jsStrLe_total :
    ∀ a b : List Char, (jsStrLe a b || jsStrLe b a) = true := by
  intro a
  induction a with
  | nil => intro b; rfl
  | cons x xs ih =>
    intro b
    cases b with
    | nil => rfl
    | cons y ys =>
      simp only [jsStrLe]
      split_ifs <;> first | rfl | simp
      all_goals simpa using ih ys

theorem mem_writtenIndexEntries (fetched : List (List Char))
    (fname f : List Char) :
    f ∈ writtenIndexEntries fetched fname ↔ f ∈ fetched ∨ f = fname := by
  unfold writtenIndexEntries
  rw [(List.mergeSort_perm _ _).mem_iff]
  simp

/-- C4: the index written back by a submission is a read-modify-write
merge: it is a permutation of the fetched entry list with exactly the
new entry's filename added, so every filename of the fetched index is
preserved and the new filename is present. -/
theorem written_index_merge (fetched : List (List Char)) (fname : List Char) :
    (writtenIndexEntries fetched fname).Perm (fetched ++ [fname]) ∧
    (∀ f ∈ fetched, f ∈ writtenIndexEntries fetched fname) ∧
    fname ∈ writtenIndexEntries fetched fname ∧
    (writtenIndexEntries fetched fname).length = fetched.length + 1 := by
  refine ⟨List.mergeSort_perm _ _, ?_, ?_, ?_⟩
  · intro f hf
    exact (mem_writtenIndexEntries fetched fname f).mpr (Or.inl hf)
  · exact (mem_writtenIndexEntries fetched fname fname).mpr (Or.inr rfl)
  · unfold writtenIndexEntries
    rw [(List.mergeSort_perm (fetched ++ [fname]) jsStrLe).length_eq]
    simp

/-- C9: the entry list written back to `index.json` is sorted under the
default JavaScript string comparison, whatever the order of the fetched
index was. -/
theorem written_index_sorted (fetched : List (List Char)) (fname : List Char) :
    List.Pairwise (fun a b => jsStrLe a b = true)
      (writtenIndexEntries fetched fname) := by
  unfold writtenIndexEntries
  exact List.sorted_mergeSort jsStrLe_trans jsStrLe_total _

/-- C5: the batch handed to `commitFiles` by a submission contains both
the new entry document and an updated index whose entry list contains
that document's filename; both live in the same
`data/experiments/<id>/entries/` directory and land in the same commit. -/
theorem submission_batch_consistent (experimentId date : List Char)
    (fetchedIndex photos : List (List Char)) (entry : EntryDoc) :
    ({ path := entryPath experimentId (chooseEntryFilename date fetchedIndex),
       content := .entryDoc entry, encoding := none } : JFile) ∈
      submissionFiles experimentId date fetchedIndex photos entry ∧
    ({ path := indexPath experimentId,
       content := .indexDoc (writtenIndexEntries fetchedIndex
         (chooseEntryFilename date fetchedIndex)),
       encoding := none } : JFile) ∈
      submissionFiles experimentId date fetchedIndex photos entry ∧
    chooseEntryFilename date fetchedIndex ∈
      writtenIndexEntries fetchedIndex (chooseEntryFilename date fetchedIndex) ∧
    entryPath experimentId (chooseEntryFilename date fetchedIndex) =
      ("data/experiments/".data ++ experimentId ++ "/entries/".data) ++
        chooseEntryFilename date fetchedIndex ∧
    indexPath experimentId =
      ("data/experiments/".data ++ experimentId ++ "/entries/".data) ++
        "index.json".data := by
  refine ⟨?_, ?_, ?_, rfl, ?_⟩
  · apply List.mem_append_right
    simp [submissionFiles]
  · apply List.mem_append_right
    simp [submissionFiles]
  · exact (mem_writtenIndexEntries fetchedIndex _ _).mpr (Or.inr rfl)
  · simp [indexPath]

/-- C6: creating a new experiment writes an `experiments.json` whose
list is the fetched list with the single new experiment appended at the
end (all prior experiments unchanged, in order), and performs no commit
at all when an experiment with the requested id already exists. -/
theorem experiments_append_only (fetched : Option (List Experiment))
    (id name description startDate : List Char) :
    ((∃ e ∈ fetched.getD [], e.id = id) →
      createNewExperimentFiles fetched id name description startDate = none) ∧
    (∀ files,
      createNewExperimentFiles fetched id name description startDate =
        some files →
      files.head? = some
        { path := "docs/data/experiments.json".data,
          content := .experimentsDoc (fetched.getD [] ++
            [{ id := id, name := name, description := description,
               startDate := startDate, status := "active".data }]),
          encoding := none } ∧
      files.length = 3) := by
  constructor
  · rintro ⟨e, he, hid⟩
    cases fetched with
    | none => cases he
    | some es =>
      simp only [Option.getD_some] at he
      simp only [createNewExperimentFiles]
      split
      · rfl
      · rw [if_pos]
        exact List.any_eq_true.mpr ⟨e, he, by simp [hid]⟩
  · intro files hf
    cases fetched with
    | none =>
      simp only [createNewExperimentFiles] at hf
      split at hf
      · cases hf
      · split at hf
        · cases hf
        · simp only [Option.some_inj] at hf
          subst hf
          simp
    | some es =>
      simp only [createNewExperimentFiles] at hf
      split at hf
      · cases hf
      · split at hf
        · cases hf
        · simp only [Option.some_inj] at hf
          subst hf
          simp

theorem jsRound_le (a b : Nat) (hb : 0 < b) (hab : a ≤ b) :
    jsRound (a * 1200) b ≤ 1200 := by
  unfold jsRound
  have h1 : 2 * (a * 1200) + b ≤ 2401 * b := by
    have : a * 1200 ≤ b * 1200 := Nat.mul_le_mul_right 1200 hab
    omega
  calc (2 * (a * 1200) + b) / (2 * b)
      ≤ (2401 * b) / (2 * b) := Nat.div_le_div_right h1
    _ = 1200 := by
        rw [show 2401 * b = b + 2 * b * 1200 by ring]
        rw [Nat.add_mul_div_left b 1200 (by omega)]
        rw [Nat.div_eq_of_lt (by omega)]

/-- C8: the dimensions computed by `compressImage` never exceed 1200 in
either direction; dimensions already within the limit are unchanged,
and otherwise the larger dimension becomes exactly 1200 while the other
is scaled to `Math.round(other * 1200 / larger)`. -/
theorem compress_dims_bounded (width height : Nat) :
    (compressDims width height).1 ≤ 1200 ∧
    (compressDims width height).2 ≤ 1200 ∧
    (width ≤ 1200 → height ≤ 1200 →
      compressDims width height = (width, height)) ∧
    (width > 1200 ∨ height > 1200 →
      (width > height →
        compressDims width height =
          (1200, jsRound (height * 1200) width)) ∧
      (¬width > height →
        compressDims width height =
          (jsRound (width * 1200) height, 1200))) := by
  unfold compressDims MAX_IMAGE_DIMENSION
  split
  · next hbig =>
    split
    · next hwh =>
      refine ⟨le_rfl, ?_, ?_, ?_⟩
      · exact jsRound_le height width (by omega) (by omega)
      · intro h1 h2; omega
      · intro _; exact ⟨fun _ => rfl, fun h => absurd hwh h⟩
    · next hwh =>
      refine ⟨?_, le_rfl, ?_, ?_⟩
      · exact jsRound_le width height (by omega) (by omega)
      · intro h1 h2; omega
      · intro _; exact ⟨fun h => absurd h hwh, fun _ => rfl⟩
  · next hsmall =>
    push_neg at hsmall
    exact ⟨hsmall.1, hsmall.2, fun _ _ => rfl, fun h => by omega⟩

/-- C10: `Auth.isConfigured` is true exactly when both the stored token
and the stored owner are non-empty; the repo slot plays no role in it,
and `Auth.getRepo` falls back to the default `'hydro_journal'` whenever
no repo name is stored. -/
theorem auth_configured_iff (st : AuthStore) :
    (Auth.isConfigured st = true ↔
      Auth.getToken st ≠ [] ∧ Auth.getOwner st ≠ []) ∧
    (st.repo = none → Auth.getRepo st = "hydro_journal".data) ∧
    (st.repo = some [] → Auth.getRepo st = "hydro_journal".data) ∧
    (∀ repo', Auth.isConfigured { st with repo := repo' } =
      Auth.isConfigured st) := by
  refine ⟨?_, ?_, ?_, ?_⟩
  · unfold Auth.isConfigured
    rw [Bool.and_eq_true, Bool.not_eq_true', Bool.not_eq_true']
    rw [List.isEmpty_eq_false, List.isEmpty_eq_false]
  · intro h
    unfold Auth.getRepo
    rw [h]
  · intro h
    unfold Auth.getRepo
    rw [h]
    rfl
  · intro repo'
    rfl

/-- C7 counterexample: a GET request to a cross-origin host other than
`api.github.com` IS answered by the fetch listener (cache-first), so the
service worker does not intercept only same-origin GET requests; and a
same-origin GET under `/icons/` is served cache-first, not
network-first. -/
theorem sw_cross_origin_intercepted :
    "cdn.jsdelivr.net".data ≠ "example.github.io".data ∧
    "cdn.jsdelivr.net".data ≠ "api.github.com".data ∧
    swHandle "example.github.io".data
      { method := "GET".data, hostname := "cdn.jsdelivr.net".data,
        pathname := "/npm/chart.js".data } ≠ Strategy.passThrough ∧
    swHandle "example.github.io".data
      { method := "GET".data, hostname := "example.github.io".data,
        pathname := "/icons/icon-192.png".data } ≠ Strategy.networkFirst := by
  decide

/-- C7 (amended): the fetch listener skips exactly the non-GET requests
and the requests to `api.github.com`; every other GET is intercepted —
cross-origin hosts and same-origin paths containing `/icons/` are served
cache-first, the rest network-first — and when the network fetch throws,
`networkFirst` answers with the cached response when one exists and with
a synthetic 503 `'Offline'` response otherwise. -/
theorem sw_fetch_dispatch (selfHostname : List Char) (r : SWRequest) :
    (swHandle selfHostname r = .passThrough ↔
      r.method ≠ "GET".data ∨ r.hostname = "api.github.com".data) ∧
    (r.method = "GET".data → r.hostname ≠ "api.github.com".data →
      ((r.hostname ≠ selfHostname ∨ hasSubstr "/icons/".data r.pathname = true) →
        swHandle selfHostname r = .cacheFirst) ∧
      (r.hostname = selfHostname → hasSubstr "/icons/".data r.pathname = false →
        swHandle selfHostname r = .networkFirst)) ∧
    (∀ cached, networkFirstResponse none cached = cached.getD offlineResponse) ∧
    networkFirstResponse none none = { status := 503, body := "Offline".data } := by
  refine ⟨?_, ?_, ?_, rfl⟩
  · unfold swHandle
    split_ifs with h1 h2 h3 <;> simp_all
  · intro hm ha
    unfold swHandle
    rw [if_neg (by simp [hm]), if_neg ha]
    constructor
    · intro hcase
      rw [if_pos]
      rcases hcase with h | h
      · exact Or.inl h
      · exact Or.inr h
    · intro hsame hicons
      rw [if_neg]
      push_neg
      exact ⟨hsame, by simp [hicons]⟩
  · intro cached
    cases cached <;> rfl

theorem runBlobs_ok (net : Net) (blobSha : Nat → List Char) :
    ∀ (files : List JFile) (i : Nat),
      (∀ j, j < files.length → net.blobResp (i + j) = .ok (blobSha (i + j))) →
      runBlobs net i files =
        (files.map fun f => Request.createBlob f.content
          (f.encoding.getD "utf-8".data),
         .ok (files.mapIdx fun j f =>
           { path := f.path, mode := "100644".data, type := "blob".data,
             sha := blobSha (i + j) })) := by
  intro files
  induction files with
  | nil => intro i _; rfl
  | cons f fs ih =>
    intro i h
    have h0 : net.blobResp i = .ok (blobSha i) := by simpa using h 0 (by simp)
    have hrec : ∀ j, j < fs.length →
        net.blobResp (i + 1 + j) = .ok (blobSha (i + 1 + j)) := by
      intro j hj
      have := h (j + 1) (by simp; omega)
      rwa [show i + (j + 1) = i + 1 + j by omega] at this
    have harith :
        (fun j (g : JFile) =>
          ({ path := g.path, mode := "100644".data, type := "blob".data,
             sha := blobSha (i + 1 + j) } : TreeEntry)) =
        fun j g =>
          { path := g.path, mode := "100644".data, type := "blob".data,
            sha := blobSha (i + (j + 1)) } := by
      funext j g
      have : i + 1 + j = i + (j + 1) := by omega
      rw [this]
    simp only [runBlobs, h0, ih (i + 1) hrec, harith, List.map_cons,
      List.mapIdx_cons, Nat.add_zero]

theorem runBlobs_no_update (net : Net) :
    ∀ (files : List JFile) (i : Nat) (r : Request),
      r ∈ (runBlobs net i files).1 → r.isUpdateRef = false := by
  intro files
  induction files with
  | nil => intro i r hr; cases hr
  | cons f fs ih =>
    intro i r hr
    rw [runBlobs] at hr
    cases hres : net.blobResp i with
    | fail e =>
      rw [hres] at hr
      simp only [List.mem_singleton] at hr
      subst hr
      rfl
    | ok sha =>
      rw [hres] at hr
      simp only [List.mem_cons] at hr
      rcases hr with rfl | hr
      · rfl
      · exact ih (i + 1) r hr

theorem runBlobs_length_le (net : Net) :
    ∀ (files : List JFile) (i : Nat),
      (runBlobs net i files).1.length ≤ files.length := by
  intro files
  induction files with
  | nil => intro i; simp [runBlobs]
  | cons f fs ih =>
    intro i
    rw [runBlobs]
    cases hres : net.blobResp i with
    | fail e => simp
    | ok sha =>
      simp only [List.length_cons]
      exact Nat.succ_le_succ (ih (i + 1))

/-- C1: when every API call succeeds, `commitFiles` performs exactly the
six-step sequence in order — resolve the branch head commit, read its
tree SHA as the merge base, create one blob per input file with the
file's declared encoding (utf-8 by default, base64 for binary), create
one tree whose base is the prior tree and whose entries are exactly the
new blobs' paths and SHAs, create a commit pointing at the new tree with
the prior head SHA as its sole parent, and finally update the branch ref
to the new commit's SHA. -/
theorem commit_six_step_sequence (net : Net) (message : List Char)
    (files : List JFile)
    (headSha baseTreeSha newTreeSha newCommitSha updatedSha : List Char)
    (blobSha : Nat → List Char)
    (h0 : net.refResp = .ok headSha)
    (h1 : net.commitResp = .ok baseTreeSha)
    (h2 : ∀ i, i < files.length → net.blobResp i = .ok (blobSha i))
    (h3 : net.treeResp = .ok newTreeSha)
    (h4 : net.newCommitResp = .ok newCommitSha)
    (h5 : net.updateResp = .ok updatedSha) :
    commitFilesRun net message files =
      ([Request.getRef "main".data, Request.getCommit headSha] ++
       (files.map fun f =>
         Request.createBlob f.content (f.encoding.getD "utf-8".data)) ++
       [Request.createTree baseTreeSha (files.mapIdx fun i f =>
          { path := f.path, mode := "100644".data, type := "blob".data,
            sha := blobSha i }),
        Request.createCommit message newTreeSha [headSha],
        Request.updateRef "main".data newCommitSha],
       .ok newCommitSha) := by
  have hb := runBlobs_ok net blobSha files 0
    (fun j hj => by simpa using h2 j hj)
  have hfix :
      (fun j (g : JFile) =>
        ({ path := g.path, mode := "100644".data, type := "blob".data,
           sha := blobSha (0 + j) } : TreeEntry)) =
      fun j g =>
        { path := g.path, mode := "100644".data, type := "blob".data,
          sha := blobSha j } := by
    funext j g
    rw [Nat.zero_add]
  rw [hfix] at hb
  simp only [commitFilesRun, h0, h1, hb, h3, h4, h5]

theorem no_update_conjuncts {C : Prop} (t : List Request)
    (hfull : ∀ r ∈ t, r.isUpdateRef = false) :
    (∀ r ∈ t.dropLast, r.isUpdateRef = false) ∧
    t.countP (fun r => r.isUpdateRef) ≤ 1 ∧
    (∀ r ∈ t, r.isUpdateRef = true → C) := by
  refine ⟨fun r hr => hfull r ((List.dropLast_sublist _).subset hr), ?_, ?_⟩
  · rw [List.countP_eq_zero.mpr (fun a ha => by simp [hfull a ha])]
    omega
  · intro r hr htrue
    rw [hfull r hr] at htrue
    cases htrue

/-- C2: when `commitFiles` fails, the emitted request trace contains a
ref update only if the ref update itself was the failing (last) call —
so a failure at any earlier step leaves the branch ref untouched; a ref
update is never issued other than as the final call, at most once, no
request is retried (the trace stays within the one-call-per-step bound),
and the error propagates to the submission UI as the flat string
`Error: <message>`. -/
theorem commit_failure_no_ref_update (net : Net) (message : List Char)
    (files : List JFile) (e : List Char)
    (h : (commitFilesRun net message files).2 = .error e) :
    (∀ r ∈ (commitFilesRun net message files).1.dropLast,
      r.isUpdateRef = false) ∧
    (commitFilesRun net message files).1.countP (fun r => r.isUpdateRef) ≤ 1 ∧
    (∀ r ∈ (commitFilesRun net message files).1, r.isUpdateRef = true →
      net.updateResp = .fail e) ∧
    (commitFilesRun net message files).1.length ≤ files.length + 5 ∧
    submitOutcomeDisplay (commitFilesRun net message files).2 =
      "Error: ".data ++ e := by
  have hblen := runBlobs_length_le net files 0
  cases h0 : net.refResp with
  | fail m =>
    simp only [commitFilesRun, h0] at h ⊢
    cases h
    have hfull : ∀ r ∈ [Request.getRef "main".data], r.isUpdateRef = false := by
      intro r hr
      obtain rfl := List.mem_singleton.mp hr
      rfl
    obtain ⟨c1, c2, c3⟩ := no_update_conjuncts _ hfull
    exact ⟨c1, c2, c3, by simp, rfl⟩
  | ok headSha =>
    have h01 : ∀ r ∈ [Request.getRef "main".data, Request.getCommit headSha],
        r.isUpdateRef = false := by
      intro r hr
      rcases List.mem_cons.mp hr with rfl | hr
      · rfl
      · obtain rfl := List.mem_singleton.mp hr
        rfl
    cases h1 : net.commitResp with
    | fail m =>
      simp only [commitFilesRun, h0, h1] at h ⊢
      cases h
      obtain ⟨c1, c2, c3⟩ := no_update_conjuncts _ h01
      exact ⟨c1, c2, c3, by simp, rfl⟩
    | ok baseTreeSha =>
      have hbupd := runBlobs_no_update net files 0
      cases hb : (runBlobs net 0 files).2 with
      | error m =>
        simp only [commitFilesRun, h0, h1, hb] at h ⊢
        cases h
        have hfull : ∀ r ∈ [Request.getRef "main".data,
            Request.getCommit headSha] ++ (runBlobs net 0 files).1,
            r.isUpdateRef = false := by
          intro r hr
          rcases List.mem_append.mp hr with hr | hr
          · exact h01 r hr
          · exact hbupd r hr
        obtain ⟨c1, c2, c3⟩ := no_update_conjuncts _ hfull
        refine ⟨c1, c2, c3, ?_, rfl⟩
        simp only [List.length_append, List.length_cons, List.length_nil]
        omega
      | ok entries =>
        cases h3 : net.treeResp with
        | fail m =>
          simp only [commitFilesRun, h0, h1, hb, h3] at h ⊢
          cases h
          have hfull : ∀ r ∈ [Request.getRef "main".data,
              Request.getCommit headSha] ++ (runBlobs net 0 files).1 ++
              [Request.createTree baseTreeSha entries],
              r.isUpdateRef = false := by
            intro r hr
            rcases List.mem_append.mp hr with hr | hr
            · rcases List.mem_append.mp hr with hr | hr
              · exact h01 r hr
              · exact hbupd r hr
            · obtain rfl := List.mem_singleton.mp hr
              rfl
          obtain ⟨c1, c2, c3⟩ := no_update_conjuncts _ hfull
          refine ⟨c1, c2, c3, ?_, rfl⟩
          simp only [List.length_append, List.length_cons, List.length_nil]
          omega
        | ok newTreeSha =>
          cases h4 : net.newCommitResp with
          | fail m =>
            simp only [commitFilesRun, h0, h1, hb, h3, h4] at h ⊢
            cases h
            have hfull : ∀ r ∈ [Request.getRef "main".data,
                Request.getCommit headSha] ++ (runBlobs net 0 files).1 ++
                [Request.createTree baseTreeSha entries,
                 Request.createCommit message newTreeSha [headSha]],
                r.isUpdateRef = false := by
              intro r hr
              rcases List.mem_append.mp hr with hr | hr
              · rcases List.mem_append.mp hr with hr | hr
                · exact h01 r hr
                · exact hbupd r hr
              · rcases List.mem_cons.mp hr with rfl | hr
                · rfl
                · obtain rfl := List.mem_singleton.mp hr
                  rfl
            obtain ⟨c1, c2, c3⟩ := no_update_conjuncts _ hfull
            refine ⟨c1, c2, c3, ?_, rfl⟩
            simp only [List.length_append, List.length_cons, List.length_nil]
            omega
          | ok newCommitSha =>
            cases h5 : net.updateResp with
            | fail m =>
              simp only [commitFilesRun, h0, h1, hb, h3, h4, h5] at h ⊢
              cases h
              have hbody : ∀ r ∈ [Request.getRef "main".data,
                  Request.getCommit headSha] ++ (runBlobs net 0 files).1 ++
                  [Request.createTree baseTreeSha entries,
                   Request.createCommit message newTreeSha [headSha]],
                  r.isUpdateRef = false := by
                intro r hr
                rcases List.mem_append.mp hr with hr | hr
                · rcases List.mem_append.mp hr with hr | hr
                  · exact h01 r hr
                  · exact hbupd r hr
                · rcases List.mem_cons.mp hr with rfl | hr
                  · rfl
                  · obtain rfl := List.mem_singleton.mp hr
                    rfl
              have hshape : ([Request.getRef "main".data,
                  Request.getCommit headSha] ++ (runBlobs net 0 files).1 ++
                  [Request.createTree baseTreeSha entries,
                   Request.createCommit message newTreeSha [headSha],
                   Request.updateRef "main".data newCommitSha]) =
                  ([Request.getRef "main".data,
                    Request.getCommit headSha] ++ (runBlobs net 0 files).1 ++
                   [Request.createTree baseTreeSha entries,
                    Request.createCommit message newTreeSha [headSha]]) ++
                  [Request.updateRef "main".data newCommitSha] := by
                simp
              refine ⟨?_, ?_, fun _ _ _ => rfl, ?_, rfl⟩
              · rw [hshape, List.dropLast_concat]
                exact hbody
              · rw [hshape, List.countP_append,
                  List.countP_eq_zero.mpr (fun a ha => by simp [hbody a ha])]
                simp [List.countP_cons, Request.isUpdateRef]
              · simp only [List.length_append, List.length_cons,
                  List.length_nil]
                omega
            | ok updatedSha =>
              simp only [commitFilesRun, h0, h1, hb, h3, h4, h5] at h
              cases h

/-! ## Concrete witnesses -/

/-- A sample all-success network oracle. -/
def net1 : Net :=
  { refResp := .ok "h1".data, commitResp := .ok "t1".data,
    blobResp := fun _ => .ok "b1".data, treeResp := .ok "t2".data,
    newCommitResp := .ok "c1".data, updateResp := .ok "u1".data }

/-- A sample oracle whose very first call (`getRef`) fails. -/
def net2 : Net :=
  { refResp := .fail "GitHub API 401: bad credentials".data,
    commitResp := .ok "t1".data, blobResp := fun _ => .ok "b1".data,
    treeResp := .ok "t2".data, newCommitResp := .ok "c1".data,
    updateResp := .ok "u1".data }

/-- A sample binary input file. -/
def file1 : JFile :=
  { path := "images/exp1/2024-01-01_001.jpg".data,
    content := .imageB64 "QUJD".data, encoding := some "base64".data }

/-- A sample entry document. -/
def entry1 : EntryDoc :=
  { date := "2024-01-01".data, time := "08:00".data, notes := [],
    images := [], ph := none, ec := none, waterTemp := none }

/-- A sample experiment. -/
def exp1 : Experiment :=
  { id := "exp1".data, name := "Lettuce".data, description := [],
    startDate := "2024-01-01".data, status := "active".data }

theorem commit_six_step_sequence_witness :
    commitFilesRun net1 "msg".data [file1] =
      ([Request.getRef "main".data, Request.getCommit "h1".data] ++
       ([file1].map fun f =>
         Request.createBlob f.content (f.encoding.getD "utf-8".data)) ++
       [Request.createTree "t1".data ([file1].mapIdx fun _ f =>
          { path := f.path, mode := "100644".data, type := "blob".data,
            sha := "b1".data }),
        Request.createCommit "msg".data "t2".data ["h1".data],
        Request.updateRef "main".data "c1".data],
       .ok "c1".data) :=
  commit_six_step_sequence net1 "msg".data [file1] "h1".data "t1".data
    "t2".data "c1".data "u1".data (fun _ => "b1".data)
    rfl rfl (fun _ _ => rfl) rfl rfl rfl

theorem commit_failure_no_ref_update_witness :
    (commitFilesRun net2 "msg".data [file1]).2 =
      .error "GitHub API 401: bad credentials".data ∧
    ((∀ r ∈ (commitFilesRun net2 "msg".data [file1]).1.dropLast,
       r.isUpdateRef = false) ∧
     (commitFilesRun net2 "msg".data [file1]).1.countP
       (fun r => r.isUpdateRef) ≤ 1 ∧
     (∀ r ∈ (commitFilesRun net2 "msg".data [file1]).1,
       r.isUpdateRef = true →
       net2.updateResp = .fail "GitHub API 401: bad credentials".data) ∧
     (commitFilesRun net2 "msg".data [file1]).1.length ≤ [file1].length + 5 ∧
     submitOutcomeDisplay (commitFilesRun net2 "msg".data [file1]).2 =
       "Error: ".data ++ "GitHub API 401: bad credentials".data) :=
  ⟨rfl, commit_failure_no_ref_update net2 "msg".data [file1]
    "GitHub API 401: bad credentials".data rfl⟩

theorem entry_filename_fresh_witness :
    chooseEntryFilename "2024-01-01".data ["2024-01-01.json".data] ∉
      ["2024-01-01.json".data] ∧
    chooseEntryFilename "2024-01-01".data ["2024-01-01.json".data] =
      "2024-01-01_02.json".data :=
  ⟨(entry_filename_fresh "2024-01-01".data ["2024-01-01.json".data]).1,
   (entry_filename_fresh "2024-01-01".data
     ["2024-01-01.json".data]).2.2.2 (by decide)⟩

theorem written_index_merge_witness :
    "2024-01-02.json".data ∈
      writtenIndexEntries ["2024-01-02.json".data] "2024-01-01.json".data ∧
    "2024-01-01.json".data ∈
      writtenIndexEntries ["2024-01-02.json".data] "2024-01-01.json".data ∧
    (writtenIndexEntries ["2024-01-02.json".data]
      "2024-01-01.json".data).length = 2 :=
  ⟨(written_index_merge ["2024-01-02.json".data] "2024-01-01.json".data).2.1
      _ (by decide),
   (written_index_merge ["2024-01-02.json".data]
      "2024-01-01.json".data).2.2.1,
   (written_index_merge ["2024-01-02.json".data]
      "2024-01-01.json".data).2.2.2⟩

theorem submission_batch_consistent_witness :
    ({ path := entryPath "exp1".data
         (chooseEntryFilename "2024-01-01".data []),
       content := .entryDoc entry1, encoding := none } : JFile) ∈
      submissionFiles "exp1".data "2024-01-01".data [] [] entry1 ∧
    ({ path := indexPath "exp1".data,
       content := .indexDoc (writtenIndexEntries []
         (chooseEntryFilename "2024-01-01".data [])),
       encoding := none } : JFile) ∈
      submissionFiles "exp1".data "2024-01-01".data [] [] entry1 ∧
    chooseEntryFilename "2024-01-01".data [] ∈
      writtenIndexEntries [] (chooseEntryFilename "2024-01-01".data []) :=
  ⟨(submission_batch_consistent "exp1".data "2024-01-01".data [] [] entry1).1,
   (submission_batch_consistent "exp1".data "2024-01-01".data [] []
      entry1).2.1,
   (submission_batch_consistent "exp1".data "2024-01-01".data [] []
      entry1).2.2.1⟩

theorem experiments_append_only_witness :
    createNewExperimentFiles (some [exp1]) "exp1".data "Basil".data []
      "2024-02-01".data = none :=
  (experiments_append_only (some [exp1]) "exp1".data "Basil".data []
    "2024-02-01".data).1 ⟨exp1, by decide, by decide⟩

theorem sw_fetch_dispatch_witness :
    swHandle "example.github.io".data
      { method := "GET".data, hostname := "example.github.io".data,
        pathname := "/data/experiments.json".data } =
      Strategy.networkFirst ∧
    networkFirstResponse none none = offlineResponse ∧
    swHandle "example.github.io".data
      { method := "POST".data, hostname := "api.github.com".data,
        pathname := "/repos/x/y/git/blobs".data } = Strategy.passThrough :=
  ⟨((sw_fetch_dispatch "example.github.io".data
      { method := "GET".data, hostname := "example.github.io".data,
        pathname := "/data/experiments.json".data }).2.1
        rfl (by decide)).2 rfl (by decide),
   (sw_fetch_dispatch "example.github.io".data
      { method := "GET".data, hostname := "example.github.io".data,
        pathname := "/data/experiments.json".data }).2.2.2,
   (sw_fetch_dispatch "example.github.io".data
      { method := "POST".data, hostname := "api.github.com".data,
        pathname := "/repos/x/y/git/blobs".data }).1.mpr
     (Or.inl (by decide))⟩

theorem compress_dims_bounded_witness :
    compressDims 2000 1000 = (1200, 600) ∧
    (compressDims 2000 1000).1 ≤ 1200 ∧
    (compressDims 2000 1000).2 ≤ 1200 ∧
    compressDims 800 600 = (800, 600) :=
  ⟨by decide, (compress_dims_bounded 2000 1000).1,
   (compress_dims_bounded 2000 1000).2.1,
   (compress_dims_bounded 800 600).2.2.1 (by decide) (by decide)⟩

theorem written_index_sorted_witness :
    List.Pairwise (fun a b => jsStrLe a b = true)
      (writtenIndexEntries ["2024-01-02.json".data] "2024-01-01.json".data) :=
  written_index_sorted ["2024-01-02.json".data] "2024-01-01.json".data

theorem auth_configured_iff_witness :
    Auth.isConfigured
      { token := some "tok".data, owner := some "me".data, repo := none } =
      true ∧
    Auth.getRepo
      { token := some "tok".data, owner := some "me".data, repo := none } =
      "hydro_journal".data :=
  ⟨(auth_configured_iff
      { token := some "tok".data, owner := some "me".data,
        repo := none }).1.mpr ⟨by decide, by decide⟩,
   (auth_configured_iff
      { token := some "tok".data, owner := some "me".data,
        repo := none }).2.1 rfl⟩

end HydroJournal
